import Mathlib

/-!
# managed-bots: the keyed snippet store of `macrobot` and the start-up path of `gcalbot`

Shallow embedding of `macrobot/macrobot/db.go` (the four statements run by
`DB.Create`, `DB.Get`, `DB.List` and `DB.Remove`) and of `gcalbot/main.go`
(`makeAdvertisement`, `getOAuthConfig`, `Go`, `mainInner`).

The relational engine is an external collaborator. It is embedded as an ideal
store: the table is the list of its rows in the order a scan visits them, a
statement never fails for a reason outside the table (no lost connection, no
failed commit), and strings compare by plain equality and by the usual
lexicographic order. SQL leaves open the order of rows that tie on the columns
of an `ORDER BY`. To evaluate, the queries sort the scanned rows with a stable
sort; no theorem below rests on that choice, and what is proved of the first row
read by `Get` is proved of every order the statement allows (`IsResultSet`).
-/

namespace macrobot

/-- One row of the table `macro`, with the four columns that `Create` writes. -/
structure Row where
  channel_name : String
  is_conv : Bool
  macro_name : String
  macro_message : String
deriving DecidableEq, Repr

/-- The columns that identify a row. -/
abbrev Key := String × Bool × String

/-- The key columns of a row. -/
def Row.key (r : Row) : Key := (r.channel_name, r.is_conv, r.macro_name)

/-- The rows of the table, in scan order. -/
abbrev Rows := List Row

/-- The handle `DB` of the source, as the state it gives access to. -/
abbrev DB := Rows

/-- Modelled from the spec: the unique key of the table `macro`, whose schema is
not part of the source files. The spec keys the table by scope name, macro name
and the is-conversation-scoped flag, so no two rows agree on all three. -/
def UniqueKeys (d : DB) : Prop := (d.map Row.key).Nodup

instance (d : DB) : Decidable (UniqueKeys d) := by
  unfold UniqueKeys; infer_instance

/-- The message stored under a key, if a row has that key. -/
def lookup (d : DB) (k : Key) : Option String :=
  (d.find? (fun r => r.key = k)).map Row.macro_message

/-- The errors a call can return. -/
inductive Error where
  /-- `sql.ErrNoRows`, returned by `Row.Scan` when the query selected nothing. -/
  | ErrNoRows
deriving DecidableEq, Repr

/-- `UPDATE macro_message=VALUES(macro_message)` on the row that has the key: the
message is replaced, the other columns stay. -/
def setMessage (k : Key) (macroMessage : String) (x : Row) : Row :=
  if x.key = k then { x with macro_message := macroMessage } else x

/-- The statement of `Create`:
`INSERT INTO ... VALUES (?, ?, ?, ?) ON DUPLICATE KEY UPDATE macro_message=VALUES(macro_message)`,
returning the affected-rows count with the table after it. The count follows the
rule of the page that the source cites: 1 for an inserted row, 2 for an updated
row, 0 when the existing row already holds the value. -/
def execInsertOnDuplicateKeyUpdate (d : DB) (channelName : String) (isConv : Bool)
    (macroName macroMessage : String) : Nat × DB :=
  match d.find? (fun r => r.key = (channelName, isConv, macroName)) with
  | none => (1, d ++ [⟨channelName, isConv, macroName, macroMessage⟩])
  | some r =>
    if r.macro_message = macroMessage then (0, d)
    else (2, d.map (setMessage (channelName, isConv, macroName) macroMessage))

/-- `DB.Create`: the returned pair is `(created, err)` and the table after the call. -/
def DB.Create (d : DB) (name convID : String) (isConv : Bool)
    (macroName macroMessage : String) : (Bool × Option Error) × DB :=
  let name := if isConv then convID else name
  let res := execInsertOnDuplicateKeyUpdate d name isConv macroName macroMessage
  let numRows := res.1
  let created := numRows == 1
  ((created, none), res.2)

/-- The `WHERE` clause of `Get`:
`(channel_name = ? OR channel_name = ?) AND macro_name = ?`. -/
def getWhere (name convID macroName : String) (r : Row) : Bool :=
  (r.channel_name == name || r.channel_name == convID) && r.macro_name == macroName

/-- `ORDER BY is_conv DESC`: a row may stand before another when its flag is at
least the other one's (`false < true`). -/
def isConvDesc (a b : Row) : Prop := b.is_conv ≤ a.is_conv

instance : DecidableRel isConvDesc := fun a b => by
  unfold isConvDesc; infer_instance

/-- What the query of `Get` may return before `LIMIT 1`: the rows that pass the `WHERE`
clause, each once, in some order that `ORDER BY is_conv DESC` allows. The statement does
not say which of two rows with the same flag comes first. -/
def IsResultSet (d : DB) (name convID macroName : String) (q : Rows) : Prop :=
  q.Perm (d.filter (getWhere name convID macroName)) ∧ q.Sorted isConvDesc

/-- The rows selected by the query of `Get`, in one order of the result set: rows with
the same flag are left in scan order. It is one of the orders of `IsResultSet`. -/
def getQuery (d : DB) (name convID macroName : String) : Rows :=
  (d.filter (getWhere name convID macroName)).insertionSort isConvDesc

/-- `DB.Get`: the returned pair is `(message, err)` and the table after the call.
`LIMIT 1` with `QueryRow(...).Scan` reads the first row of the result set, and
yields `sql.ErrNoRows` with the message left at its zero value when there is none. -/
def DB.Get (d : DB) (name convID macroName : String) : (String × Option Error) × DB :=
  match (getQuery d name convID macroName).head? with
  | some r => ((r.macro_message, none), d)
  | none => (("", some Error.ErrNoRows), d)

/-- The struct `Macro` of the source. -/
structure Macro where
  Name : String
  Message : String
  IsConv : Bool
deriving DecidableEq, Repr

/-- The `WHERE` clause of `List`: `channel_name = ? OR channel_name = ?`. -/
def listWhere (name convID : String) (r : Row) : Bool :=
  r.channel_name == name || r.channel_name == convID

/-- Strict lexicographic order of two strings, read off their characters (the
order `<` of `String`, in a form that evaluates). -/
def strLT (a b : String) : Prop := a.toList < b.toList

instance : DecidableRel strLT := fun a b => by
  unfold strLT; infer_instance

/-- `ORDER BY macro_name ASC, is_conv DESC`. -/
def listOrder (a b : Row) : Prop :=
  strLT a.macro_name b.macro_name ∨ (a.macro_name = b.macro_name ∧ b.is_conv ≤ a.is_conv)

instance : DecidableRel listOrder := fun a b => by
  unfold listOrder; infer_instance

/-- The rows selected by the query of `List`, in the order of the result set. -/
def listQuery (d : DB) (name convID : String) : Rows :=
  (d.filter (listWhere name convID)).insertionSort listOrder

/-- The columns `macro_name, macro_message, is_conv` scanned into a `Macro`. -/
def scanMacro (r : Row) : Macro := ⟨r.macro_name, r.macro_message, r.is_conv⟩

/-- `DB.List`: the returned pair is `(list, err)` and the table after the call.
The loop appends one `Macro` per row of the result set to a list that starts nil. -/
def DB.List (d : DB) (name convID : String) : (List Macro × Option Error) × DB :=
  (((listQuery d name convID).map scanMacro, none), d)

/-- The column `channel_name` as `Create` writes it: a conversation-scoped row is stored
under the conversation id and a channel-wide row under the team name. `isConvID` tells the
two kinds of name apart; a table is scoped when every row's flag agrees with its name. -/
def Scoped (isConvID : String → Bool) (d : DB) : Prop :=
  ∀ r ∈ d, r.is_conv = isConvID r.channel_name

/-- The statement of `Remove`: `DELETE FROM ... WHERE channel_name = ? AND macro_name = ?`,
returning the affected-rows count with the table after it. -/
def execDelete (d : DB) (channelName macroName : String) : Nat × DB :=
  ((d.filter (fun r => r.channel_name == channelName && r.macro_name == macroName)).length,
   d.filter (fun r => !(r.channel_name == channelName && r.macro_name == macroName)))

/-- `DB.Remove`: the returned pair is `(removed, err)` and the table after the call. -/
def DB.Remove (d : DB) (name convID macroName : String) : (Bool × Option Error) × DB :=
  -- First try to delete for the conv
  let res := execDelete d convID macroName
  let rows := res.1
  if rows == 1 then ((true, none), res.2)
  else
    -- Now try teamwide
    let res := execDelete res.2 name macroName
    let rows := res.1
    ((rows == 1, none), res.2)

end macrobot

namespace gcalbot

/-- The fields of `chat1.UserBotExtendedDescription` that the source fills. -/
structure UserBotExtendedDescription where
  Title : String
  DesktopBody : String
  MobileBody : String
deriving DecidableEq, Repr

/-- The fields of `chat1.UserBotCommandInput` that the source fills; a field left
out of a literal has its zero value (the empty string, a nil pointer). -/
structure UserBotCommandInput where
  Name : String
  Description : String
  Usage : String := ""
  ExtendedDescription : Option UserBotExtendedDescription := none
deriving DecidableEq, Repr

/-- The fields of `chat1.AdvertiseCommandAPIParam` that the source fills. -/
structure AdvertiseCommandAPIParam where
  Typ : String
  Commands : List UserBotCommandInput
deriving DecidableEq, Repr

/-- The struct `kbchat.Advertisement`. -/
structure Advertisement where
  Alias : String
  Advertisements : List AdvertiseCommandAPIParam
deriving DecidableEq, Repr

/-- The constant `back` of the source. -/
def back : String := "`"

/-- The constant `backs` of the source. -/
def backs : String := "```"

/-- The local `accountsConnectDesc`: the format string with its four `%s` filled
by `back, back, backs, backs`. -/
def accountsConnectDesc : String :=
  "Connects a Google account to the Google Calendar bot and stores the connection under a descriptive nickname.\nView your connected Google accounts using "
    ++ back ++ "!gcal accounts list" ++ back ++ "\n\nExamples:" ++ backs
    ++ "\n!gcal accounts connect personal\n!gcal accounts connect work" ++ backs

/-- The local `accountsDisconnectDesc`. -/
def accountsDisconnectDesc : String :=
  "Disconnects a Google account from the Google Calendar bot given the connection's nickname.\nView your connected Google accounts using "
    ++ back ++ "!gcal accounts list" ++ back ++ "\n\nExamples:" ++ backs
    ++ "\n!gcal accounts disconnect personal\n!gcal accounts disconnect work" ++ backs

/-- The local `listCalendarsDesc`. -/
def listCalendarsDesc : String :=
  "Lists calendars associated with a Google account given the account connection's nickname.\nView your connected Google accounts using "
    ++ back ++ "!gcal accounts list" ++ back ++ "\n\nExamples:" ++ backs
    ++ "\n!gcal list-calendars personal\n!gcal list-calendars work" ++ backs

/-- The local `subscribeInvitesDesc`. -/
def subscribeInvitesDesc : String :=
  "Subscribes to invites for the primary calendar of a Google account given the account connection's nickname.\nView your connected Google accounts using "
    ++ back ++ "!gcal accounts list" ++ back ++ "\n\nExamples:" ++ backs
    ++ "\n!gcal subscribe invites personal\n!gcal subscribe invites work" ++ backs

/-- The local `unsubscribeInvitesDesc`. -/
def unsubscribeInvitesDesc : String :=
  "Unsubscribes from invites for the primary calendar of a Google account given the account connection's nickname.\nView your connected Google accounts using "
    ++ back ++ "!gcal accounts list" ++ back ++ "\n\nExamples:" ++ backs
    ++ "\n!gcal unsubscribe invites personal\n!gcal unsubscribe invites work" ++ backs

/-- The local `commands` of `makeAdvertisement`. -/
def commands : List UserBotCommandInput :=
  [ { Name := "gcal accounts list",
      Description := "List your connected Google accounts" },
    { Name := "gcal accounts connect",
      Description := "Connect a Google account",
      Usage := "<account nickname>",
      ExtendedDescription := some {
        Title := "*!gcal accounts connect* <account nickname>",
        DesktopBody := accountsConnectDesc,
        MobileBody := accountsConnectDesc } },
    { Name := "gcal accounts disconnect",
      Description := "Disconnect a Google account",
      Usage := "<account nickname>",
      ExtendedDescription := some {
        Title := "*!gcal accounts disconnect* <account nickname>",
        DesktopBody := accountsDisconnectDesc,
        MobileBody := accountsDisconnectDesc } },
    { Name := "gcal list-calendars",
      Description := "List calendars that a Google account is subscribed to",
      Usage := "<account nickname>",
      ExtendedDescription := some {
        Title := "*!gcal list-calendars* <account nickname>",
        DesktopBody := listCalendarsDesc,
        MobileBody := listCalendarsDesc } },
    { Name := "gcal subscribe invites",
      Description := "Subscribe to event invites for your primary calendar.",
      Usage := "<account nickname>",
      ExtendedDescription := some {
        Title := "*!gcal subscribe invites* <account nickname>",
        DesktopBody := subscribeInvitesDesc,
        MobileBody := subscribeInvitesDesc } },
    { Name := "gcal unsubscribe invites",
      Description := "Unsubscribe from event invites for your primary calendar.",
      Usage := "<account nickname>",
      ExtendedDescription := some {
        Title := "*!gcal unsubscribe invites* <account nickname>",
        DesktopBody := unsubscribeInvitesDesc,
        MobileBody := unsubscribeInvitesDesc } } ]

/-- `BotServer.makeAdvertisement`; it reads nothing of its receiver. -/
def makeAdvertisement : Advertisement :=
  { Alias := "Google Calendar",
    Advertisements := [ { Typ := "public", Commands := commands } ] }

/-- The struct `Options`: the two fields declared in `main.go` and the fields of
the embedded `base.Options` that `main.go` reads. -/
structure Options where
  KBFSRoot : String
  HTTPPrefix : String
  DSN : String
  KeybaseLocation : String
  Home : String
  Announcement : String
deriving DecidableEq, Repr

/-- The struct `BotServer`. The chat handle `kbc` is nil until `Start` has
returned and is not read before; the embedding tracks `Start` as an event. -/
structure BotServer where
  opts : Options
deriving DecidableEq, Repr

/-- An `*oauth2.Config`, as far as the source looks into it (it does not). -/
structure Config where
  json : String
  scopes : List String
deriving DecidableEq, Repr

/-- What the process does to the world outside it, in the order it does it. -/
inductive Event where
  /-- `fmt.Printf` with its format and arguments. -/
  | printf (format : String) (args : List String)
  /-- `s.Debug` with its format and arguments. -/
  | debug (format : String) (args : List String)
  /-- `NewBotServer`, which builds the `base.Server`. -/
  | newBotServer (announcement : String)
  /-- `s.opts.Command(...)` followed by `cmd.Run()`. -/
  | commandRun (args : List String)
  /-- `google.ConfigFromJSON`. -/
  | configFromJSON (scopes : List String)
  /-- `s.Start`, which starts the chat client. -/
  | start (keybaseLocation home : String)
  /-- `sql.Open("mysql", dsn)`. -/
  | sqlOpen (dsn : String)
  /-- `s.kbc.AdvertiseCommands`. -/
  | advertiseCommands (ad : Advertisement)
  /-- `s.SendAnnouncement`. -/
  | sendAnnouncement (announcement msg : String)
  /-- The goroutine running `s.Listen(handler)`. -/
  | listen (httpPrefix : String)
  /-- The goroutine running `httpSrv.Listen`. -/
  | httpListen
  /-- The goroutine running `s.HandleSignals(httpSrv)`. -/
  | handleSignals
deriving DecidableEq, Repr

/-- The answers of everything `main.go` calls outside itself: errors are given by
their message, `none` standing for a nil error. -/
structure World where
  /-- `opts.Parse(fs, os.Args)` after the two `fs.StringVar`: the parsed options,
  or the error it returns. -/
  parse : Except String Options
  /-- `filepath.Join`. -/
  filepathJoin : String → String → String
  /-- `cmd.Run()` of the command with these arguments: its standard output, or its error. -/
  cmdRun : List String → Except String String
  /-- `google.ConfigFromJSON`. -/
  configFromJSON : String → List String → Except String Config
  /-- `s.Start`. -/
  start : Option String
  /-- `sql.Open`. -/
  sqlOpen : String → Option String
  /-- `s.kbc.AdvertiseCommands`. -/
  advertiseCommands : Advertisement → Option String
  /-- `s.SendAnnouncement`. -/
  sendAnnouncement : Option String
  /-- `eg.Wait()`: the first error of the three goroutines, if any. -/
  wait : Option String

/-- `calendar.CalendarReadonlyScope`. -/
def CalendarReadonlyScope : String := "https://www.googleapis.com/auth/calendar.readonly"

/-- `calendar.CalendarEventsScope`. -/
def CalendarEventsScope : String := "https://www.googleapis.com/auth/calendar.events"

/-- `NewBotServer`. -/
def NewBotServer (opts : Options) : BotServer := { opts := opts }

/-- `BotServer.getOAuthConfig`: the returned pair `(config, err)` and the events of the call. -/
def BotServer.getOAuthConfig (w : World) (s : BotServer) :
    (Option Config × Option String) × List Event :=
  if s.opts.KBFSRoot.utf8ByteSize = 0 then
    ((none, some "BOT_KBFS_ROOT must be specified\n"), [])
  else
    let configPath := w.filepathJoin s.opts.KBFSRoot "credentials.json"
    let ev := [Event.printf
      "Running `keybase fs read` on %q and waiting for it to finish...\n" [configPath],
      Event.commandRun ["fs", "read", configPath]]
    match w.cmdRun ["fs", "read", configPath] with
    | .error err => ((none, some ("could not read credentials.json: " ++ err)), ev)
    | .ok out =>
      let scopes := [CalendarReadonlyScope, CalendarEventsScope]
      match w.configFromJSON out scopes with
      | .error err =>
        ((none, some ("unable to parse client secret file to config: " ++ err)),
          ev ++ [Event.configFromJSON scopes])
      | .ok config => ((some config, none), ev ++ [Event.configFromJSON scopes])

/-- `BotServer.Go`: the returned error and the events of the call. -/
def BotServer.Go (w : World) (s : BotServer) : Option String × List Event :=
  let r := s.getOAuthConfig w
  match r.1.2 with
  | some err => (some ("failed to get config " ++ err), r.2)
  | none =>
    let ev := r.2 ++ [Event.start s.opts.KeybaseLocation s.opts.Home]
    match w.start with
    | some err => (some ("failed to start keybase " ++ err), ev)
    | none =>
      let ev := ev ++ [Event.sqlOpen s.opts.DSN]
      match w.sqlOpen s.opts.DSN with
      | some err => (some err, ev ++ [Event.debug "failed to connect to MySQL: %s" [err]])
      | none =>
        let ev := ev ++ [Event.advertiseCommands makeAdvertisement]
        match w.advertiseCommands makeAdvertisement with
        | some err => (some err, ev ++ [Event.debug "advertise error: %s" [err]])
        | none =>
          let ev := ev ++ [Event.sendAnnouncement s.opts.Announcement "I live."]
          let ev := match w.sendAnnouncement with
            | some err => ev ++ [Event.debug "failed to announce self: %s" [err]]
            | none => ev
          let ev := ev ++ [Event.listen s.opts.HTTPPrefix, Event.httpListen, Event.handleSignals]
          match w.wait with
          | some err => (some err, ev ++ [Event.debug "wait error: %s" [err]])
          | none => (none, ev)

/-- `mainInner`: the exit code and the events of the run. -/
def mainInner (w : World) : Int × List Event :=
  match w.parse with
  | .error err => (3, [Event.printf "Unable to parse options: %v\n" [err]])
  | .ok opts =>
    if opts.DSN.utf8ByteSize = 0 then
      (3, [Event.printf "must specify a database DSN\n" []])
    else
      let bs := NewBotServer opts
      let r := bs.Go w
      match r.1 with
      | some err =>
        (3, [Event.newBotServer opts.Announcement] ++ r.2
          ++ [Event.printf "error running chat loop: %s\n" [err]])
      | none => (0, [Event.newBotServer opts.Announcement] ++ r.2)

/-- A world in which every call succeeds: the options parse with a DSN and a KBFS root,
the credentials are read and parsed, and the three goroutines end without an error. -/
def quietWorld : World where
  parse := .ok
    { KBFSRoot := "/keybase/private/bot", HTTPPrefix := "https://bot.example",
      DSN := "user@tcp(db)/gcal", KeybaseLocation := "keybase", Home := "/home/bot",
      Announcement := "ops" }
  filepathJoin := fun a b => a ++ "/" ++ b
  cmdRun := fun _ => .ok "secret"
  configFromJSON := fun out scopes => .ok { json := out, scopes := scopes }
  start := none
  sqlOpen := fun _ => none
  advertiseCommands := fun _ => none
  sendAnnouncement := none
  wait := none

/-- The world of `quietWorld` with options that parse without a KBFS root. -/
def rootlessWorld : World :=
  { quietWorld with
    parse := Except.ok
      { KBFSRoot := "", HTTPPrefix := "", DSN := "user@tcp(db)/gcal",
        KeybaseLocation := "keybase", Home := "/home/bot", Announcement := "ops" } }

end gcalbot

namespace macrobot

/-! ## The query of `Get` -/

theorem isConvDesc_total (a b : Row) : isConvDesc a b ∨ isConvDesc b a := by
  unfold isConvDesc
  exact le_total _ _

theorem isConvDesc_trans (a b c : Row) (h₁ : isConvDesc a b) (h₂ : isConvDesc b c) :
    isConvDesc a c := by
  unfold isConvDesc at *
  exact le_trans h₂ h₁

theorem getQuery_perm (d : DB) (name convID m : String) :
    (getQuery d name convID m).Perm (d.filter (getWhere name convID m)) :=
  List.perm_insertionSort _ _

theorem getQuery_sorted (d : DB) (name convID m : String) :
    (getQuery d name convID m).Sorted isConvDesc := by
  haveI : IsTotal Row isConvDesc := ⟨isConvDesc_total⟩
  haveI : IsTrans Row isConvDesc := ⟨isConvDesc_trans⟩
  exact List.sorted_insertionSort _ _

theorem mem_getQuery {d : DB} {name convID m : String} {r : Row} :
    r ∈ getQuery d name convID m ↔ r ∈ d ∧ getWhere name convID m r = true := by
  rw [(getQuery_perm d name convID m).mem_iff, List.mem_filter]

theorem getWhere_iff {name convID m : String} {r : Row} :
    getWhere name convID m r = true ↔
      (r.channel_name = name ∨ r.channel_name = convID) ∧ r.macro_name = m := by
  simp [getWhere]

theorem getQuery_isResultSet (d : DB) (name convID m : String) :
    IsResultSet d name convID m (getQuery d name convID m) :=
  ⟨getQuery_perm d name convID m, getQuery_sorted d name convID m⟩

theorem mem_resultSet {d : DB} {name convID m : String} {q : Rows}
    (hq : IsResultSet d name convID m q) {r : Row} :
    r ∈ q ↔ r ∈ d ∧ getWhere name convID m r = true := by
  rw [hq.1.mem_iff, List.mem_filter]

/-- The first row of any result set of `Get`: it is a row of the table that passes the
`WHERE` clause, and it is flagged `is_conv` as soon as any such row is. -/
theorem resultSet_head {d : DB} {name convID m : String} {q : Rows}
    (hq : IsResultSet d name convID m q) {r : Row} (h : q.head? = some r) :
    r ∈ d ∧ getWhere name convID m r = true ∧
      ∀ x ∈ d, getWhere name convID m x = true → x.is_conv = true → r.is_conv = true := by
  have hs := hq.2
  cases q with
  | nil => simp at h
  | cons a l =>
    simp only [List.head?_cons, Option.some.injEq] at h
    subst h
    have hmem : a ∈ a :: l := List.mem_cons_self _ _
    refine ⟨((mem_resultSet hq).1 hmem).1, ((mem_resultSet hq).1 hmem).2, ?_⟩
    intro x hx hw hc
    have hxq : x ∈ a :: l := (mem_resultSet hq).2 ⟨hx, hw⟩
    rcases List.mem_cons.1 hxq with rfl | hxl
    · exact hc
    · have := List.rel_of_sorted_cons hs x hxl
      unfold isConvDesc at this
      rw [hc] at this
      cases hr : a.is_conv with
      | true => rfl
      | false => rw [hr] at this; exact absurd this (by decide)

theorem resultSet_head_none {d : DB} {name convID m : String} {q : Rows}
    (hq : IsResultSet d name convID m q) :
    q.head? = none ↔ ∀ x ∈ d, getWhere name convID m x = false := by
  rw [List.head?_eq_none_iff]
  constructor
  · intro h x hx
    by_contra hw
    have : x ∈ q := (mem_resultSet hq).2 ⟨hx, by simpa using hw⟩
    rw [h] at this
    simp at this
  · intro h
    cases q with
    | nil => rfl
    | cons a l =>
      have := (mem_resultSet hq).1 (List.mem_cons_self a l)
      rw [h a this.1] at this
      simp at this

/-- The first row of the result set of `Get`, in the order that `getQuery` evaluates. -/
theorem getQuery_head {d : DB} {name convID m : String} {r : Row}
    (h : (getQuery d name convID m).head? = some r) :
    r ∈ d ∧ getWhere name convID m r = true ∧
      ∀ x ∈ d, getWhere name convID m x = true → x.is_conv = true → r.is_conv = true :=
  resultSet_head (getQuery_isResultSet d name convID m) h

theorem getQuery_head_none {d : DB} {name convID m : String} :
    (getQuery d name convID m).head? = none ↔
      ∀ x ∈ d, getWhere name convID m x = false :=
  resultSet_head_none (getQuery_isResultSet d name convID m)

/-- Rows of a table with unique keys are told apart by their keys. -/
theorem eq_of_key_eq {d : DB} (hk : UniqueKeys d) {r r' : Row} (hr : r ∈ d) (hr' : r' ∈ d)
    (h : r.key = r'.key) : r = r' :=
  List.inj_on_of_nodup_map hk hr hr' h

/-- Claim C9. `Get` returns an error exactly when no row of the table has the macro name and
one of the two channel names; the error is then `sql.ErrNoRows`. Otherwise it returns, with
a nil error, the message of such a row, and that row is flagged `is_conv` whenever some
row with the macro name and one of the two channel names is. The table is never changed. -/
theorem Get_error_iff_nothing_to_read (d : DB) (name convID m : String) :
    ((DB.Get d name convID m).1.2 ≠ none ↔
        ∀ r ∈ d, ¬ ((r.channel_name = name ∨ r.channel_name = convID) ∧ r.macro_name = m)) ∧
    ((DB.Get d name convID m).1.2 ≠ none →
        (DB.Get d name convID m).1.2 = some Error.ErrNoRows) ∧
    ((DB.Get d name convID m).1.2 = none →
        ∃ r ∈ d, ((r.channel_name = name ∨ r.channel_name = convID) ∧ r.macro_name = m) ∧
          (DB.Get d name convID m).1.1 = r.macro_message ∧
          ∀ x ∈ d, ((x.channel_name = name ∨ x.channel_name = convID) ∧ x.macro_name = m) →
            x.is_conv = true → r.is_conv = true) ∧
    (DB.Get d name convID m).2 = d := by
  cases hq : (getQuery d name convID m).head? with
  | none =>
    have hnone := getQuery_head_none.1 hq
    have hG : DB.Get d name convID m = (("", some Error.ErrNoRows), d) := by
      simp [DB.Get, hq]
    rw [hG]
    refine ⟨⟨fun _ r hr hw => ?_, fun _ => by simp⟩, fun _ => rfl, fun h => by simp at h, rfl⟩
    have := hnone r hr
    rw [getWhere_iff.2 hw] at this
    simp at this
  | some r =>
    obtain ⟨hr, hw, hc⟩ := getQuery_head hq
    have hG : DB.Get d name convID m = ((r.macro_message, none), d) := by
      simp [DB.Get, hq]
    rw [hG]
    refine ⟨⟨fun h => absurd rfl h, fun h => absurd (getWhere_iff.1 hw) (h r hr)⟩,
      fun h => absurd rfl h, fun _ => ⟨r, hr, getWhere_iff.1 hw, rfl, ?_⟩, rfl⟩
    intro x hx hxw hxc
    exact hc x hx (getWhere_iff.2 hxw) hxc

/-- With unique keys and no conversation-scoped row for `m` stored under `name`, a
conversation-scoped row `(convID, true, m)` is the first row of every result set of `Get`. -/
theorem resultSet_head_of_conv_row {d : DB} {name convID m b : String} (hk : UniqueKeys d)
    (hb : (⟨convID, true, m, b⟩ : Row) ∈ d) (hno : ∀ r ∈ d, r.key ≠ (name, true, m))
    {q : Rows} (hq : IsResultSet d name convID m q) :
    q.head? = some ⟨convID, true, m, b⟩ := by
  cases hh : q.head? with
  | none =>
    have := (resultSet_head_none hq).1 hh _ hb
    simp [getWhere] at this
  | some r =>
    obtain ⟨hr, hw, hc⟩ := resultSet_head hq hh
    have hrc : r.is_conv = true := hc _ hb (by simp [getWhere]) rfl
    obtain ⟨hch, hm⟩ := getWhere_iff.1 hw
    have hkey : r.key = (convID, true, m) := by
      rcases hch with h | h
      · exact absurd (by simp [Row.key, h, hrc, hm]) (hno r hr)
      · simp [Row.key, h, hrc, hm]
    rw [eq_of_key_eq hk hr hb (by simpa [Row.key] using hkey)]

/-- With unique keys and no conversation-scoped row for `m` stored under `name`, a
conversation-scoped row `(convID, true, m)` is the one that `Get` reads. -/
theorem Get_eq_of_conv_row {d : DB} {name convID m b : String} (hk : UniqueKeys d)
    (hb : (⟨convID, true, m, b⟩ : Row) ∈ d) (hno : ∀ r ∈ d, r.key ≠ (name, true, m)) :
    DB.Get d name convID m = ((b, none), d) := by
  have hq := resultSet_head_of_conv_row hk hb hno (getQuery_isResultSet d name convID m)
  simp [DB.Get, hq]

/-- With unique keys, no conversation-scoped row for `m` stored under `name` and no row for
`m` stored under `convID`, the channel-wide row `(name, false, m)` is the one that `Get` reads. -/
theorem Get_eq_of_channel_row {d : DB} {name convID m a : String} (hk : UniqueKeys d)
    (ha : (⟨name, false, m, a⟩ : Row) ∈ d) (hno : ∀ r ∈ d, r.key ≠ (name, true, m))
    (hnc : ∀ r ∈ d, ¬ (r.channel_name = convID ∧ r.macro_name = m)) :
    DB.Get d name convID m = ((a, none), d) := by
  cases hq : (getQuery d name convID m).head? with
  | none =>
    have := getQuery_head_none.1 hq _ ha
    simp [getWhere] at this
  | some r =>
    obtain ⟨hr, hw, _⟩ := getQuery_head hq
    obtain ⟨hch, hm⟩ := getWhere_iff.1 hw
    have hkey : r.key = (name, false, m) := by
      rcases hch with h | h
      · cases hc : r.is_conv with
        | false => simp [Row.key, h, hc, hm]
        | true => exact absurd (by simp [Row.key, h, hc, hm]) (hno r hr)
      · exact absurd ⟨h, hm⟩ (hnc r hr)
    have : r = ⟨name, false, m, a⟩ := eq_of_key_eq hk hr ha (by simpa [Row.key] using hkey)
    subst this
    simp [DB.Get, hq]

/-- Claim C1. Let the table have unique keys, let `name` be a team name (the rows stored
under it are channel-wide) and `convID` a conversation id with `name ≠ convID`, and let the
table hold a channel-wide entry `(name, false, m)` with message `a` and a
conversation-scoped entry `(convID, true, m)` with message `b`. Then `Get(name, convID, m)`
returns `b` with a nil error and leaves the table unchanged; and in whatever order the
statement returns rows that tie, the row it reads first is the conversation-scoped entry. -/
theorem Get_prefers_conversation_entry (d : DB) (name convID m a b : String)
    (hk : UniqueKeys d) (_hne : name ≠ convID)
    (hteam : ∀ r ∈ d, r.channel_name = name → r.is_conv = false)
    (_ha : (⟨name, false, m, a⟩ : Row) ∈ d) (hb : (⟨convID, true, m, b⟩ : Row) ∈ d) :
    DB.Get d name convID m = ((b, none), d) ∧
    ∀ q, IsResultSet d name convID m q → q.head? = some ⟨convID, true, m, b⟩ := by
  have hno : ∀ r ∈ d, r.key ≠ (name, true, m) := by
    intro r hr hkey
    simp only [Row.key, Prod.mk.injEq] at hkey
    have := hteam r hr hkey.1
    rw [hkey.2.1] at this
    exact absurd this (by decide)
  exact ⟨Get_eq_of_conv_row hk hb hno, fun q hq => resultSet_head_of_conv_row hk hb hno hq⟩

/-- Witness of `Get_prefers_conversation_entry`: a team `team` with a channel-wide `foo`
and another macro, and the conversation `conv` with its own `foo`. -/
theorem Get_prefers_conversation_entry_witness :
    DB.Get [⟨"team", false, "foo", "a"⟩, ⟨"team", false, "bar", "z"⟩,
        ⟨"conv", true, "foo", "b"⟩] "team" "conv" "foo"
      = (("b", none), [⟨"team", false, "foo", "a"⟩, ⟨"team", false, "bar", "z"⟩,
        ⟨"conv", true, "foo", "b"⟩]) :=
  (Get_prefers_conversation_entry _ "team" "conv" "foo" "a" "b" (by decide) (by decide)
    (by decide) (by decide) (by decide)).1

end macrobot

namespace macrobot

/-! ## The statement of `Remove` -/

theorem UniqueKeys.filter {d : DB} (hk : UniqueKeys d) (p : Row → Bool) :
    UniqueKeys (d.filter p) :=
  List.Nodup.sublist ((List.filter_sublist d).map Row.key) hk

theorem execDelete_none {d : DB} {ch m : String}
    (h : ∀ r ∈ d, ¬ (r.channel_name = ch ∧ r.macro_name = m)) :
    execDelete d ch m = (0, d) := by
  unfold execDelete
  have h1 : d.filter (fun r => r.channel_name == ch && r.macro_name == m) = [] := by
    rw [List.filter_eq_nil_iff]
    intro a ha
    have := h a ha
    simp only [Bool.and_eq_true, beq_iff_eq]
    exact this
  have h2 : d.filter (fun r => !(r.channel_name == ch && r.macro_name == m)) = d := by
    rw [List.filter_eq_self]
    intro a ha
    have := h a ha
    simp only [Bool.not_eq_true', Bool.and_eq_false_iff, beq_eq_false_iff_ne, ne_eq]
    exact not_and_or.1 this
  rw [h1, h2]
  rfl

/-- A `DELETE` that matches one row only: the count is 1 and the row is gone. -/
theorem execDelete_single {d : DB} (hk : UniqueKeys d) {row : Row} (hrow : row ∈ d)
    (honly : ∀ r ∈ d, r.channel_name = row.channel_name → r.macro_name = row.macro_name →
      r.is_conv = row.is_conv) :
    execDelete d row.channel_name row.macro_name
      = (1, d.filter (fun r => decide (r ≠ row))) := by
  have hp : ∀ r ∈ d,
      (r.channel_name == row.channel_name && r.macro_name == row.macro_name) = (r == row) := by
    intro r hr
    by_cases h : r = row
    · subst h; simp
    · have hne : ¬ (r.channel_name = row.channel_name ∧ r.macro_name = row.macro_name) := by
        rintro ⟨h1, h2⟩
        exact h (eq_of_key_eq hk hr hrow (by simp [Row.key, h1, h2, honly r hr h1 h2]))
      have h1 : (r == row) = false := by simpa using h
      rw [h1]
      simpa using hne
  have hnd : d.Nodup := List.Nodup.of_map Row.key hk
  unfold execDelete
  congr 1
  · rw [List.filter_congr hp, ← List.countP_eq_length_filter]
    exact List.count_eq_one_of_mem hnd hrow
  · apply List.filter_congr
    intro r hr
    rw [hp r hr]
    by_cases h : r = row <;> simp [h]

theorem length_filter_ne {d : DB} (hk : UniqueKeys d) {row : Row} (hrow : row ∈ d) :
    (d.filter (fun r => decide (r ≠ row))).length + 1 = d.length := by
  have hnd : d.Nodup := List.Nodup.of_map Row.key hk
  have h := List.length_eq_countP_add_countP (fun r => r == row) d
  have h1 : List.countP (fun r => r == row) d = 1 := List.count_eq_one_of_mem hnd hrow
  rw [h1, List.countP_eq_length_filter] at h
  have h2 : d.filter (fun a => decide ¬((fun r => r == row) a) = true)
      = d.filter (fun r => decide (r ≠ row)) := by
    apply List.filter_congr
    intro r _
    by_cases hr : r = row <;> simp [hr]
  rw [h2] at h
  omega

/-- Claim C2. In a table with unique keys that holds the channel-wide entry
`(name, false, m)` and the conversation-scoped entry `(convID, true, m)`, with
`name ≠ convID` and no other entry for `m` under `name` or under `convID`: the first
`Remove(name, convID, m)` returns `removed = true`, deletes the conversation-scoped row and
no other (the channel-wide row stays); the second returns `removed = true` and deletes the
channel-wide row and no other; the third returns `removed = false` with a nil error and
changes nothing. -/
theorem Remove_conversation_then_channel (d : DB) (name convID m a b : String)
    (hk : UniqueKeys d) (_hne : name ≠ convID)
    (ha : (⟨name, false, m, a⟩ : Row) ∈ d) (hb : (⟨convID, true, m, b⟩ : Row) ∈ d)
    (hno₁ : ∀ r ∈ d, r.key ≠ (name, true, m))
    (hno₂ : ∀ r ∈ d, r.key ≠ (convID, false, m)) :
    DB.Remove d name convID m
        = ((true, none), d.filter (fun r => decide (r ≠ ⟨convID, true, m, b⟩))) ∧
    (⟨name, false, m, a⟩ : Row) ∈ (DB.Remove d name convID m).2 ∧
    (DB.Remove d name convID m).2.length + 1 = d.length ∧
    DB.Remove (DB.Remove d name convID m).2 name convID m
        = ((true, none),
            (DB.Remove d name convID m).2.filter (fun r => decide (r ≠ ⟨name, false, m, a⟩))) ∧
    (DB.Remove (DB.Remove d name convID m).2 name convID m).2.length + 1
        = (DB.Remove d name convID m).2.length ∧
    DB.Remove (DB.Remove (DB.Remove d name convID m).2 name convID m).2 name convID m
        = ((false, none), (DB.Remove (DB.Remove d name convID m).2 name convID m).2) := by
  -- the first call
  have hconv : ∀ r ∈ d, r.channel_name = convID → r.macro_name = m → r.is_conv = true := by
    intro r hr h1 h2
    cases hc : r.is_conv with
    | true => rfl
    | false => exact absurd (by simp [Row.key, h1, h2, hc]) (hno₂ r hr)
  have hchan : ∀ r ∈ d, r.channel_name = name → r.macro_name = m → r.is_conv = false := by
    intro r hr h1 h2
    cases hc : r.is_conv with
    | false => rfl
    | true => exact absurd (by simp [Row.key, h1, h2, hc]) (hno₁ r hr)
  have e1 : execDelete d convID m
      = (1, d.filter (fun r => decide (r ≠ ⟨convID, true, m, b⟩))) :=
    execDelete_single hk hb hconv
  have r1 : DB.Remove d name convID m
      = ((true, none), d.filter (fun r => decide (r ≠ ⟨convID, true, m, b⟩))) := by
    simp only [DB.Remove, e1]
    rfl
  -- the table after the first call
  have hk1 : UniqueKeys (d.filter (fun r => decide (r ≠ ⟨convID, true, m, b⟩))) := hk.filter _
  have ha1 : (⟨name, false, m, a⟩ : Row)
      ∈ d.filter (fun r => decide (r ≠ ⟨convID, true, m, b⟩)) := by
    rw [List.mem_filter]
    exact ⟨ha, by simp⟩
  have hnoconv1 : ∀ r ∈ d.filter (fun r => decide (r ≠ ⟨convID, true, m, b⟩)),
      ¬ (r.channel_name = convID ∧ r.macro_name = m) := by
    intro r hr ⟨h1, h2⟩
    rw [List.mem_filter] at hr
    have hrb : r = ⟨convID, true, m, b⟩ :=
      eq_of_key_eq hk hr.1 hb (by simp [Row.key, h1, h2, hconv r hr.1 h1 h2])
    simp [hrb] at hr
  have e2 : execDelete (d.filter (fun r => decide (r ≠ ⟨convID, true, m, b⟩))) convID m
      = (0, d.filter (fun r => decide (r ≠ ⟨convID, true, m, b⟩))) :=
    execDelete_none hnoconv1
  have e3 : execDelete (d.filter (fun r => decide (r ≠ ⟨convID, true, m, b⟩))) name m
      = (1, (d.filter (fun r => decide (r ≠ ⟨convID, true, m, b⟩))).filter
          (fun r => decide (r ≠ ⟨name, false, m, a⟩))) :=
    execDelete_single hk1 ha1 (fun r hr h1 h2 => hchan r (List.mem_filter.1 hr).1 h1 h2)
  have r2 : DB.Remove (d.filter (fun r => decide (r ≠ ⟨convID, true, m, b⟩))) name convID m
      = ((true, none), (d.filter (fun r => decide (r ≠ ⟨convID, true, m, b⟩))).filter
          (fun r => decide (r ≠ ⟨name, false, m, a⟩))) := by
    simp only [DB.Remove, e2, e3]
    rfl
  -- the table after the second call
  have hnoconv2 : ∀ r ∈ (d.filter (fun r => decide (r ≠ ⟨convID, true, m, b⟩))).filter
      (fun r => decide (r ≠ ⟨name, false, m, a⟩)),
      ¬ (r.channel_name = convID ∧ r.macro_name = m) :=
    fun r hr => hnoconv1 r (List.mem_filter.1 hr).1
  have hnochan2 : ∀ r ∈ (d.filter (fun r => decide (r ≠ ⟨convID, true, m, b⟩))).filter
      (fun r => decide (r ≠ ⟨name, false, m, a⟩)),
      ¬ (r.channel_name = name ∧ r.macro_name = m) := by
    intro r hr ⟨h1, h2⟩
    rw [List.mem_filter, List.mem_filter] at hr
    have hra : r = ⟨name, false, m, a⟩ :=
      eq_of_key_eq hk hr.1.1 ha (by simp [Row.key, h1, h2, hchan r hr.1.1 h1 h2])
    simp [hra] at hr
  have r3 : DB.Remove ((d.filter (fun r => decide (r ≠ ⟨convID, true, m, b⟩))).filter
      (fun r => decide (r ≠ ⟨name, false, m, a⟩))) name convID m
      = ((false, none), (d.filter (fun r => decide (r ≠ ⟨convID, true, m, b⟩))).filter
          (fun r => decide (r ≠ ⟨name, false, m, a⟩))) := by
    simp only [DB.Remove, execDelete_none hnoconv2, execDelete_none hnochan2]
    rfl
  rw [r1]
  refine ⟨rfl, ha1, length_filter_ne hk hb, ?_, ?_, ?_⟩
  · exact r2
  · rw [r2]; exact length_filter_ne hk1 ha1
  · rw [r2]; exact r3

/-- Witness of `Remove_conversation_then_channel`: the table of the spec's example, a
channel-wide `foo` of `team` and a `foo` of the conversation `conv`, with an unrelated row. -/
theorem Remove_conversation_then_channel_witness :
    DB.Remove [⟨"team", false, "foo", "a"⟩, ⟨"conv", true, "foo", "b"⟩,
        ⟨"team", false, "bar", "z"⟩] "team" "conv" "foo"
      = ((true, none), [⟨"team", false, "foo", "a"⟩, ⟨"team", false, "bar", "z"⟩]) :=
  (Remove_conversation_then_channel
    [⟨"team", false, "foo", "a"⟩, ⟨"conv", true, "foo", "b"⟩, ⟨"team", false, "bar", "z"⟩]
    "team" "conv" "foo" "a" "b" (by decide) (by decide) (by decide) (by decide)
    (by decide) (by decide)).1

theorem execDelete_sublist (d : DB) (ch m : String) : (execDelete d ch m).2.Sublist d :=
  List.filter_sublist d

/-- Whatever the table, the rows left by `Remove` are rows of the table, in their order. -/
theorem Remove_sublist (d : DB) (name convID m : String) :
    (DB.Remove d name convID m).2.Sublist d := by
  unfold DB.Remove
  by_cases h : ((execDelete d convID m).1 == 1) = true
  · simp only [h, if_true]
    exact execDelete_sublist d convID m
  · simp only [h, if_false]
    exact (execDelete_sublist _ name m).trans (execDelete_sublist d convID m)

/-- Whatever the table, `Remove` returns a nil error. -/
theorem Remove_err (d : DB) (name convID m : String) :
    (DB.Remove d name convID m).1.2 = none := by
  unfold DB.Remove
  by_cases h : ((execDelete d convID m).1 == 1) = true
  · simp only [h, if_true]
  · simp only [h, Bool.false_eq_true, if_false]

/-- Claim C6, as amended. Let the table have unique keys, and let neither `name` nor
`convID` hold both a conversation-scoped and a channel-wide row for `m`. Then
`Remove(name, convID, m)` returns a nil error, the rows it leaves are rows of the table in
their order, and it deletes one row exactly when it returns `removed = true` and none
otherwise. -/
theorem Remove_point_delete_of_single_scope (d : DB) (name convID m : String)
    (hk : UniqueKeys d)
    (h1 : ∀ r ∈ d, ∀ x ∈ d, r.macro_name = m → x.macro_name = m →
      r.channel_name = x.channel_name → (r.channel_name = name ∨ r.channel_name = convID) →
      r.is_conv = x.is_conv) :
    (DB.Remove d name convID m).1.2 = none ∧
    (DB.Remove d name convID m).2.Sublist d ∧
    (DB.Remove d name convID m).2.length + (if (DB.Remove d name convID m).1.1 then 1 else 0)
      = d.length := by
  have hdel : ∀ ch : String, (ch = name ∨ ch = convID) →
      (execDelete d ch m = (0, d) ∨
        ∃ row ∈ d, execDelete d ch m = (1, d.filter (fun r => decide (r ≠ row)))) := by
    intro ch hch
    by_cases hex : ∃ row ∈ d, row.channel_name = ch ∧ row.macro_name = m
    · obtain ⟨row, hrow, hc, hm⟩ := hex
      right
      refine ⟨row, hrow, ?_⟩
      have := execDelete_single hk hrow
        (fun r hr e1 e2 => h1 r hr row hrow (e2.trans hm) hm e1 (by rw [e1, hc]; exact hch))
      rw [hc, hm] at this
      exact this
    · left
      exact execDelete_none (fun r hr hrm => hex ⟨r, hr, hrm⟩)
  refine ⟨Remove_err d name convID m, Remove_sublist d name convID m, ?_⟩
  rcases hdel convID (Or.inr rfl) with e | ⟨row, hrow, e⟩
  · rcases hdel name (Or.inl rfl) with e' | ⟨row', hrow', e'⟩
    · have hR : DB.Remove d name convID m = ((false, none), d) := by
        simp only [DB.Remove, e, e']
        rfl
      rw [hR]
      rfl
    · have hR : DB.Remove d name convID m
          = ((true, none), d.filter (fun r => decide (r ≠ row'))) := by
        simp only [DB.Remove, e, e']
        rfl
      rw [hR]
      exact length_filter_ne hk hrow'
  · have hR : DB.Remove d name convID m
        = ((true, none), d.filter (fun r => decide (r ≠ row))) := by
      simp only [DB.Remove, e]
      rfl
    rw [hR]
    exact length_filter_ne hk hrow

/-- Witness of `Remove_point_delete_of_single_scope`: a team `team` with two channel-wide
macros and the conversation `conv` with its own `foo`; one row goes and `removed` is true. -/
theorem Remove_point_delete_of_single_scope_witness :
    (DB.Remove [⟨"team", false, "foo", "a"⟩, ⟨"conv", true, "foo", "b"⟩,
        ⟨"team", false, "bar", "z"⟩] "team" "conv" "foo").2.length
      + (if (DB.Remove [⟨"team", false, "foo", "a"⟩, ⟨"conv", true, "foo", "b"⟩,
          ⟨"team", false, "bar", "z"⟩] "team" "conv" "foo").1.1 then 1 else 0)
      = ([⟨"team", false, "foo", "a"⟩, ⟨"conv", true, "foo", "b"⟩,
          ⟨"team", false, "bar", "z"⟩] : DB).length :=
  (Remove_point_delete_of_single_scope
    [⟨"team", false, "foo", "a"⟩, ⟨"conv", true, "foo", "b"⟩, ⟨"team", false, "bar", "z"⟩]
    "team" "conv" "foo" (by decide) (by decide)).2.2

/-- Claim C6, counterexample: the case that the claim names. The table has unique keys and
holds, under the one channel name `X`, a conversation-scoped `m` and a channel-wide `m`.
The first `DELETE` of `Remove(n, X, m)` filters on `channel_name` and `macro_name` only and
deletes both rows; the count 2 is other than 1, the second `DELETE` finds nothing under `n`,
and the call returns `removed = false` with a nil error. Two rows are deleted, not at most
one, and `removed` is false although rows were deleted. -/
theorem Remove_deletes_two_rows_reports_none :
    UniqueKeys [⟨"X", false, "m", "a"⟩, ⟨"X", true, "m", "b"⟩] ∧
    execDelete [⟨"X", false, "m", "a"⟩, ⟨"X", true, "m", "b"⟩] "X" "m" = (2, []) ∧
    DB.Remove [⟨"X", false, "m", "a"⟩, ⟨"X", true, "m", "b"⟩] "n" "X" "m"
      = ((false, none), []) ∧
    (DB.Remove [⟨"X", false, "m", "a"⟩, ⟨"X", true, "m", "b"⟩] "n" "X" "m").2.length + 2
      = ([⟨"X", false, "m", "a"⟩, ⟨"X", true, "m", "b"⟩] : DB).length := by
  decide

end macrobot

namespace macrobot

/-! ## The statement of `Create` -/

theorem lookup_eq_none_iff {d : DB} {k : Key} : lookup d k = none ↔ ∀ r ∈ d, r.key ≠ k := by
  simp [lookup, List.find?_eq_none]

theorem lookup_eq_some {d : DB} {k : Key} {b : String} (h : lookup d k = some b) :
    ∃ r ∈ d, r.key = k ∧ r.macro_message = b := by
  unfold lookup at h
  cases hf : d.find? (fun r => decide (r.key = k)) with
  | none => rw [hf] at h; simp at h
  | some r =>
    rw [hf] at h
    exact ⟨r, List.mem_of_find?_eq_some hf, by simpa using List.find?_some hf, by simpa using h⟩

theorem lookup_of_mem {d : DB} (hk : UniqueKeys d) {r : Row} (hr : r ∈ d) :
    lookup d r.key = some r.macro_message := by
  cases hl : lookup d r.key with
  | none => exact absurd rfl (lookup_eq_none_iff.1 hl r hr)
  | some b =>
    obtain ⟨x, hx, hxk, hxb⟩ := lookup_eq_some hl
    rw [← hxb, eq_of_key_eq hk hx hr hxk]

theorem setMessage_key (k : Key) (msg : String) (x : Row) : (setMessage k msg x).key = x.key := by
  unfold setMessage
  split <;> rfl

theorem setMessage_of_ne {k : Key} {msg : String} {x : Row} (h : x.key ≠ k) :
    setMessage k msg x = x := by
  unfold setMessage
  rw [if_neg h]

theorem setMessage_of_eq {k : Key} {msg : String} {x : Row} (h : x.key = k) :
    (setMessage k msg x).macro_message = msg := by
  unfold setMessage
  rw [if_pos h]

theorem find?_map_setMessage (d : DB) (k k' : Key) (msg : String) :
    (d.map (setMessage k msg)).find? (fun r => decide (r.key = k'))
      = (d.find? (fun r => decide (r.key = k'))).map (setMessage k msg) := by
  rw [List.find?_map]
  congr 1
  apply congrArg (fun p => List.find? p d)
  funext x
  simp [setMessage_key]

/-- What the statement of `Create` does to the table, by the three cases of its count. -/
theorem execInsertOnDuplicateKeyUpdate_cases (d : DB) (ch : String) (isConv : Bool)
    (m msg : String) :
    (lookup d (ch, isConv, m) = none ∧
      execInsertOnDuplicateKeyUpdate d ch isConv m msg = (1, d ++ [⟨ch, isConv, m, msg⟩])) ∨
    (lookup d (ch, isConv, m) = some msg ∧
      execInsertOnDuplicateKeyUpdate d ch isConv m msg = (0, d)) ∨
    (∃ old, lookup d (ch, isConv, m) = some old ∧ old ≠ msg ∧
      execInsertOnDuplicateKeyUpdate d ch isConv m msg
        = (2, d.map (setMessage (ch, isConv, m) msg))) := by
  unfold execInsertOnDuplicateKeyUpdate lookup
  cases hf : d.find? (fun r => decide (r.key = (ch, isConv, m))) with
  | none => left; simp
  | some r =>
    right
    by_cases hm : r.macro_message = msg
    · left; simp [hm]
    · right; exact ⟨r.macro_message, by simp, hm, by simp [hm]⟩

theorem lookup_append_new (d : DB) (row : Row) (k : Key) :
    lookup (d ++ [row]) k = (lookup d k).or (if row.key = k then some row.macro_message else none) := by
  unfold lookup
  rw [List.find?_append]
  cases hf : d.find? (fun r => decide (r.key = k)) with
  | some r => simp
  | none =>
    by_cases h : row.key = k <;> simp [List.find?, h]

theorem lookup_map_setMessage_same {d : DB} {k : Key} {msg old : String}
    (h : lookup d k = some old) : lookup (d.map (setMessage k msg)) k = some msg := by
  unfold lookup at *
  rw [find?_map_setMessage]
  cases hf : d.find? (fun r => decide (r.key = k)) with
  | none => rw [hf] at h; simp at h
  | some r =>
    have : r.key = k := by simpa using List.find?_some hf
    simp [setMessage_of_eq this]

theorem lookup_map_setMessage_other (d : DB) {k k' : Key} (msg : String) (h : k' ≠ k) :
    lookup (d.map (setMessage k msg)) k' = lookup d k' := by
  unfold lookup
  rw [find?_map_setMessage]
  cases hf : d.find? (fun r => decide (r.key = k')) with
  | none => rfl
  | some r =>
    have : r.key = k' := by simpa using List.find?_some hf
    have hne : r.key ≠ k := this ▸ h
    simp [setMessage_of_ne hne]

theorem filter_map_setMessage (d : DB) (k : Key) (msg : String) :
    (d.map (setMessage k msg)).filter (fun r => decide (r.key ≠ k))
      = d.filter (fun r => decide (r.key ≠ k)) := by
  induction d with
  | nil => rfl
  | cons x xs ih =>
    by_cases h : x.key = k
    · simp only [List.map_cons, List.filter_cons, setMessage_key, ih, h, ne_eq,
        not_true_eq_false, decide_False, Bool.false_eq_true, if_false]
    · simp only [List.map_cons, List.filter_cons, setMessage_key, ih,
        decide_eq_true (show x.key ≠ k from h), setMessage_of_ne h, if_true]

theorem UniqueKeys.map_setMessage {d : DB} (hk : UniqueKeys d) (k : Key) (msg : String) :
    UniqueKeys (d.map (setMessage k msg)) := by
  unfold UniqueKeys at *
  rw [List.map_map]
  have : Row.key ∘ setMessage k msg = Row.key := funext (fun x => setMessage_key k msg x)
  rw [this]
  exact hk

theorem UniqueKeys.append_new {d : DB} (hk : UniqueKeys d) {row : Row}
    (h : lookup d row.key = none) : UniqueKeys (d ++ [row]) := by
  unfold UniqueKeys at *
  rw [List.map_append, List.nodup_append]
  refine ⟨hk, by simp, ?_⟩
  intro k hk₁ hk₂
  simp only [List.map_cons, List.map_nil, List.mem_singleton] at hk₂
  obtain ⟨r, hr, hrk⟩ := List.mem_map.1 hk₁
  exact lookup_eq_none_iff.1 h r hr (hrk.trans hk₂)

end macrobot

namespace macrobot

/-- The effect of the statement of `Create` on the table, whatever its count. -/
theorem execInsertOnDuplicateKeyUpdate_table (d : DB) (ch : String) (isConv : Bool)
    (m msg : String) :
    lookup (execInsertOnDuplicateKeyUpdate d ch isConv m msg).2 (ch, isConv, m) = some msg ∧
    (∀ k, k ≠ (ch, isConv, m) →
      lookup (execInsertOnDuplicateKeyUpdate d ch isConv m msg).2 k = lookup d k) ∧
    (execInsertOnDuplicateKeyUpdate d ch isConv m msg).2.filter
        (fun r => decide (r.key ≠ (ch, isConv, m)))
      = d.filter (fun r => decide (r.key ≠ (ch, isConv, m))) ∧
    (lookup d (ch, isConv, m) = none →
      (execInsertOnDuplicateKeyUpdate d ch isConv m msg).2.length = d.length + 1) ∧
    (lookup d (ch, isConv, m) ≠ none →
      (execInsertOnDuplicateKeyUpdate d ch isConv m msg).2.length = d.length) ∧
    (UniqueKeys d → UniqueKeys (execInsertOnDuplicateKeyUpdate d ch isConv m msg).2) := by
  rcases execInsertOnDuplicateKeyUpdate_cases d ch isConv m msg with
    ⟨hl, he⟩ | ⟨hl, he⟩ | ⟨old, hl, _, he⟩
  · rw [he]
    refine ⟨?_, ?_, ?_, fun _ => by simp, fun h => absurd hl h, fun hk => hk.append_new hl⟩
    · rw [lookup_append_new, hl]; simp [Row.key]
    · intro k hne
      rw [lookup_append_new, if_neg (fun h => hne h.symm)]
      cases lookup d k <;> rfl
    · simp [List.filter_append, List.filter_cons, Row.key]
  · rw [he]
    exact ⟨hl, fun _ _ => rfl, rfl, fun h => by rw [hl] at h; simp at h, fun _ => rfl, id⟩
  · rw [he]
    refine ⟨lookup_map_setMessage_same hl, fun k hne => lookup_map_setMessage_other d msg hne,
      filter_map_setMessage d _ msg, fun h => by rw [hl] at h; simp at h, fun _ => by simp,
      fun hk => hk.map_setMessage _ msg⟩

/-- Claim C3. `Create` is an upsert. With `scope` the conversation id when `isConv` is set
and the name otherwise: the call returns a nil error; afterwards the table maps the key
`(scope, isConv, m)` to the message; every other key maps to what it did, and the rows with
another key are the same rows in the same order; the table has one row more if the key was
absent and as many rows as before if it was present; unique keys stay unique; and when
`isConv` is set, the argument `name` has no effect on the result. -/
theorem Create_is_upsert (d : DB) (name convID : String) (isConv : Bool) (m msg : String) :
    (DB.Create d name convID isConv m msg).1.2 = none ∧
    lookup (DB.Create d name convID isConv m msg).2
        (if isConv then convID else name, isConv, m) = some msg ∧
    (∀ k, k ≠ (if isConv then convID else name, isConv, m) →
      lookup (DB.Create d name convID isConv m msg).2 k = lookup d k) ∧
    (DB.Create d name convID isConv m msg).2.filter
        (fun r => decide (r.key ≠ (if isConv then convID else name, isConv, m)))
      = d.filter (fun r => decide (r.key ≠ (if isConv then convID else name, isConv, m))) ∧
    (lookup d (if isConv then convID else name, isConv, m) = none →
      (DB.Create d name convID isConv m msg).2.length = d.length + 1) ∧
    (lookup d (if isConv then convID else name, isConv, m) ≠ none →
      (DB.Create d name convID isConv m msg).2.length = d.length) ∧
    (UniqueKeys d → UniqueKeys (DB.Create d name convID isConv m msg).2) ∧
    (isConv = true → ∀ other : String,
      DB.Create d other convID isConv m msg = DB.Create d name convID isConv m msg) := by
  obtain ⟨h1, h2, h3, h4, h5, h6⟩ := execInsertOnDuplicateKeyUpdate_table d
    (if isConv then convID else name) isConv m msg
  refine ⟨rfl, h1, h2, h3, h4, h5, h6, ?_⟩
  intro hc other
  subst hc
  rfl

/-- Claim C4. With the affected-rows rule of `INSERT ... ON DUPLICATE KEY UPDATE` (1 for an
inserted row, 2 for an updated row, 0 when the row already holds the value), and `scope` the
conversation id when `isConv` is set and the name otherwise: `Create` returns
`created = true` exactly when the table had no row with the key `(scope, isConv, m)`; the
count is then 1. When the key was present, `created` is false, both when the stored message
differs from the new one (count 2) and when it is the same (count 0). -/
theorem Create_created_iff_key_absent (d : DB) (name convID : String) (isConv : Bool)
    (m msg : String) :
    ((DB.Create d name convID isConv m msg).1.1 = true ↔
      lookup d (if isConv then convID else name, isConv, m) = none) ∧
    (lookup d (if isConv then convID else name, isConv, m) = none →
      (execInsertOnDuplicateKeyUpdate d (if isConv then convID else name) isConv m msg).1 = 1) ∧
    (∀ old, lookup d (if isConv then convID else name, isConv, m) = some old → old ≠ msg →
      (execInsertOnDuplicateKeyUpdate d (if isConv then convID else name) isConv m msg).1 = 2 ∧
      (DB.Create d name convID isConv m msg).1.1 = false) ∧
    (lookup d (if isConv then convID else name, isConv, m) = some msg →
      (execInsertOnDuplicateKeyUpdate d (if isConv then convID else name) isConv m msg).1 = 0 ∧
      (DB.Create d name convID isConv m msg).1.1 = false) := by
  have hC : (DB.Create d name convID isConv m msg).1.1
      = ((execInsertOnDuplicateKeyUpdate d (if isConv then convID else name) isConv m msg).1
          == 1) := rfl
  rw [hC]
  rcases execInsertOnDuplicateKeyUpdate_cases d (if isConv then convID else name) isConv m msg
    with ⟨hl, he⟩ | ⟨hl, he⟩ | ⟨old, hl, hne, he⟩
  · rw [he, hl]
    simp
  · rw [he, hl]
    simp
  · rw [he, hl]
    simp [hne]

end macrobot

namespace macrobot

/-! ## `Create` followed by `Get` -/

theorem mem_of_lookup_eq_some {d : DB} {ch : String} {c : Bool} {m b : String}
    (h : lookup d (ch, c, m) = some b) : (⟨ch, c, m, b⟩ : Row) ∈ d := by
  obtain ⟨r, hr, hrk, hrb⟩ := lookup_eq_some h
  have : r = ⟨ch, c, m, b⟩ := by
    cases r
    simp only [Row.key, Prod.mk.injEq] at hrk
    simp only at hrb
    simp [hrk.1, hrk.2.1, hrk.2.2, hrb]
  exact this ▸ hr

theorem mem_Create {d : DB} {name convID : String} {isConv : Bool} {m msg : String} {r : Row}
    (h : r ∈ (DB.Create d name convID isConv m msg).2) :
    (∃ x ∈ d, x.key = r.key) ∨ r.key = (if isConv then convID else name, isConv, m) := by
  have hC : (DB.Create d name convID isConv m msg).2
      = (execInsertOnDuplicateKeyUpdate d (if isConv then convID else name) isConv m msg).2 :=
    rfl
  rw [hC] at h
  rcases execInsertOnDuplicateKeyUpdate_cases d (if isConv then convID else name) isConv m msg
    with ⟨_, he⟩ | ⟨_, he⟩ | ⟨old, _, _, he⟩
  · rw [he] at h
    rcases List.mem_append.1 h with h | h
    · exact Or.inl ⟨r, h, rfl⟩
    · right
      rw [List.mem_singleton] at h
      rw [h]
      rfl
  · rw [he] at h
    exact Or.inl ⟨r, h, rfl⟩
  · rw [he] at h
    obtain ⟨x, hx, rfl⟩ := List.mem_map.1 h
    exact Or.inl ⟨x, hx, (setMessage_key _ _ _).symm⟩

/-- Claim C8, as amended. Let the table have unique keys, let every row stored under `name`
be channel-wide and every row stored under `convID` be conversation-scoped, and let
`name ≠ convID`. After `Create(name, convID, true, m, msg)`, which returns a nil error,
`Get(name, convID, m)` returns `msg`, whatever channel-wide entry for `m` exists. After
`Create(name, convID, false, m, msg)`, which returns a nil error: if there was no
conversation-scoped entry `(convID, true, m)`, `Get(name, convID, m)` returns `msg`; if there
was one, with message `b`, the `Create` left it unchanged and `Get` returns `b`. So `Get`
returns `msg` exactly when there is no such entry or its message is `msg` itself. -/
theorem Create_then_Get (d : DB) (name convID m msg : String)
    (hk : UniqueKeys d) (hne : name ≠ convID)
    (hn : ∀ r ∈ d, r.channel_name = name → r.is_conv = false)
    (hc : ∀ r ∈ d, r.channel_name = convID → r.is_conv = true) :
    (DB.Create d name convID true m msg).1.2 = none ∧
    DB.Get (DB.Create d name convID true m msg).2 name convID m
      = ((msg, none), (DB.Create d name convID true m msg).2) ∧
    (DB.Create d name convID false m msg).1.2 = none ∧
    (lookup d (convID, true, m) = none →
      DB.Get (DB.Create d name convID false m msg).2 name convID m
        = ((msg, none), (DB.Create d name convID false m msg).2)) ∧
    (∀ b, lookup d (convID, true, m) = some b →
      lookup (DB.Create d name convID false m msg).2 (convID, true, m) = some b ∧
      DB.Get (DB.Create d name convID false m msg).2 name convID m
        = ((b, none), (DB.Create d name convID false m msg).2)) ∧
    ((DB.Get (DB.Create d name convID false m msg).2 name convID m).1 = (msg, none) ↔
      lookup d (convID, true, m) = none ∨ lookup d (convID, true, m) = some msg) := by
  -- no conversation-scoped row is stored under `name`, before or after either call
  have hno : ∀ (c : Bool) (r : Row), r ∈ (DB.Create d name convID c m msg).2 →
      r.key ≠ (name, true, m) := by
    intro c r hr hkey
    rcases mem_Create hr with ⟨x, hx, hxk⟩ | h
    · rw [hkey] at hxk
      simp only [Row.key, Prod.mk.injEq] at hxk
      have := hn x hx hxk.1
      rw [hxk.2.1] at this
      exact absurd this (by decide)
    · rw [hkey] at h
      cases c with
      | true =>
        simp only [if_true, Prod.mk.injEq] at h
        exact hne h.1
      | false => simp at h
  have hT := (execInsertOnDuplicateKeyUpdate_table d convID true m msg)
  have hF := (execInsertOnDuplicateKeyUpdate_table d name false m msg)
  have hCT : (DB.Create d name convID true m msg).2
      = (execInsertOnDuplicateKeyUpdate d convID true m msg).2 := rfl
  have hCF : (DB.Create d name convID false m msg).2
      = (execInsertOnDuplicateKeyUpdate d name false m msg).2 := rfl
  have hkT : UniqueKeys (DB.Create d name convID true m msg).2 := hCT ▸ hT.2.2.2.2.2 hk
  have hkF : UniqueKeys (DB.Create d name convID false m msg).2 := hCF ▸ hF.2.2.2.2.2 hk
  have hlF : lookup (DB.Create d name convID false m msg).2 (convID, true, m)
      = lookup d (convID, true, m) := by
    rw [hCF]
    exact hF.2.1 _ (by simp)
  have hget_none : lookup d (convID, true, m) = none →
      DB.Get (DB.Create d name convID false m msg).2 name convID m
        = ((msg, none), (DB.Create d name convID false m msg).2) := by
    intro hl
    have hrow : (⟨name, false, m, msg⟩ : Row) ∈ (DB.Create d name convID false m msg).2 :=
      mem_of_lookup_eq_some (hCF ▸ hF.1)
    refine Get_eq_of_channel_row hkF hrow (hno false) ?_
    intro r hr ⟨h1, h2⟩
    rcases mem_Create hr with ⟨x, hx, hxk⟩ | h
    · simp only [Row.key, Prod.mk.injEq] at hxk
      have hxc := hc x hx (hxk.1.trans h1)
      exact lookup_eq_none_iff.1 hl x hx (by simp [Row.key, hxk.1, h1, hxk.2.2, h2, hxc])
    · simp only [Row.key, Bool.false_eq_true, if_false, Prod.mk.injEq] at h
      exact hne (h.1.symm.trans h1)
  have hget_some : ∀ b, lookup d (convID, true, m) = some b →
      DB.Get (DB.Create d name convID false m msg).2 name convID m
        = ((b, none), (DB.Create d name convID false m msg).2) := by
    intro b hl
    exact Get_eq_of_conv_row hkF (mem_of_lookup_eq_some (hlF.trans hl)) (hno false)
  refine ⟨rfl, ?_, rfl, hget_none, fun b hl => ⟨hlF.trans hl, hget_some b hl⟩, ?_⟩
  · exact Get_eq_of_conv_row hkT (mem_of_lookup_eq_some (hCT ▸ hT.1)) (hno true)
  · cases hl : lookup d (convID, true, m) with
    | none => simp [hget_none hl]
    | some b => simp [hget_some b hl]

/-- Witness of `Create_then_Get`: a team `team` with a channel-wide `foo` and the
conversation `conv` with its own `foo`; `Create` then sets the channel-wide `foo` again. -/
theorem Create_then_Get_witness :
    DB.Get (DB.Create [⟨"team", false, "foo", "a"⟩, ⟨"conv", true, "foo", "b"⟩]
        "team" "conv" false "foo" "new").2 "team" "conv" "foo"
      = (("b", none), [⟨"team", false, "foo", "new"⟩, ⟨"conv", true, "foo", "b"⟩]) :=
  ((Create_then_Get [⟨"team", false, "foo", "a"⟩, ⟨"conv", true, "foo", "b"⟩]
    "team" "conv" "foo" "new" (by decide) (by decide) (by decide) (by decide)).2.2.2.2.1
      "b" (by decide)).2

/-- Claim C8, counterexample. The table holds the conversation-scoped entry
`(conv, true, foo)` with message `hi` and nothing else; its only row is conversation-scoped
and stored under the conversation id, and `team ≠ conv`. After
`Create(team, conv, false, foo, hi)`, `Get(team, conv, foo)` returns `hi`, the message just
created, although a conversation-scoped entry `(conv, true, foo)` exists. -/
theorem Create_then_Get_counterexample :
    UniqueKeys [⟨"conv", true, "foo", "hi"⟩] ∧ "team" ≠ "conv" ∧
    (∀ r ∈ ([⟨"conv", true, "foo", "hi"⟩] : DB), r.channel_name = "team" → r.is_conv = false) ∧
    (∀ r ∈ ([⟨"conv", true, "foo", "hi"⟩] : DB), r.channel_name = "conv" → r.is_conv = true) ∧
    (DB.Create [⟨"conv", true, "foo", "hi"⟩] "team" "conv" false "foo" "hi").1.2 = none ∧
    (DB.Get (DB.Create [⟨"conv", true, "foo", "hi"⟩] "team" "conv" false "foo" "hi").2
        "team" "conv" "foo").1 = ("hi", none) ∧
    lookup [⟨"conv", true, "foo", "hi"⟩] ("conv", true, "foo") ≠ none ∧
    lookup (DB.Create [⟨"conv", true, "foo", "hi"⟩] "team" "conv" false "foo" "hi").2
        ("conv", true, "foo") ≠ none := by
  decide

end macrobot

namespace macrobot

/-! ## The query of `List` -/

theorem strLT_iff (a b : String) : strLT a b ↔ a < b :=
  String.lt_iff_toList_lt.symm

theorem listOrder_total (a b : Row) : listOrder a b ∨ listOrder b a := by
  unfold listOrder
  simp only [strLT_iff]
  rcases lt_trichotomy a.macro_name b.macro_name with h | h | h
  · exact Or.inl (Or.inl h)
  · rcases le_total b.is_conv a.is_conv with hc | hc
    · exact Or.inl (Or.inr ⟨h, hc⟩)
    · exact Or.inr (Or.inr ⟨h.symm, hc⟩)
  · exact Or.inr (Or.inl h)

theorem listOrder_trans (a b c : Row) (h₁ : listOrder a b) (h₂ : listOrder b c) :
    listOrder a c := by
  unfold listOrder at *
  simp only [strLT_iff] at *
  rcases h₁ with h₁ | ⟨e₁, c₁⟩
  · rcases h₂ with h₂ | ⟨e₂, _⟩
    · exact Or.inl (lt_trans h₁ h₂)
    · exact Or.inl (e₂ ▸ h₁)
  · rcases h₂ with h₂ | ⟨e₂, c₂⟩
    · exact Or.inl (e₁ ▸ h₂)
    · exact Or.inr ⟨e₁.trans e₂, le_trans c₂ c₁⟩

theorem listQuery_perm (d : DB) (name convID : String) :
    (listQuery d name convID).Perm (d.filter (listWhere name convID)) :=
  List.perm_insertionSort _ _

theorem listQuery_sorted (d : DB) (name convID : String) :
    (listQuery d name convID).Sorted listOrder := by
  haveI : IsTotal Row listOrder := ⟨listOrder_total⟩
  haveI : IsTrans Row listOrder := ⟨listOrder_trans⟩
  exact List.sorted_insertionSort _ _

/-- Claim C7. `List(name, convID)` returns a nil error and leaves the table unchanged. The
list holds, once each and with no merging of a macro name present in both scopes, the triple
`(macro_name, macro_message, is_conv)` of every row whose channel name is `name` or
`convID`, and of no other row. It is sorted by macro name, ascending, and of two entries
with the same macro name a conversation-scoped one never comes after a channel-wide one.
When no row has either channel name, the list is empty. -/
theorem List_returns_matching_rows_sorted (d : DB) (name convID : String) :
    (DB.List d name convID).1.2 = none ∧
    (DB.List d name convID).2 = d ∧
    (DB.List d name convID).1.1.Perm
      ((d.filter (fun r => decide (r.channel_name = name ∨ r.channel_name = convID))).map
        (fun r => (⟨r.macro_name, r.macro_message, r.is_conv⟩ : Macro))) ∧
    (DB.List d name convID).1.1.Pairwise
      (fun a b => a.Name ≤ b.Name ∧ (a.Name = b.Name → b.IsConv = true → a.IsConv = true)) ∧
    ((∀ r ∈ d, ¬ (r.channel_name = name ∨ r.channel_name = convID)) →
      (DB.List d name convID).1.1 = []) := by
  have hw : listWhere name convID
      = fun r => decide (r.channel_name = name ∨ r.channel_name = convID) := by
    funext r
    by_cases h₁ : r.channel_name = name <;> by_cases h₂ : r.channel_name = convID <;>
      simp [listWhere, h₁, h₂]
  refine ⟨rfl, rfl, ?_, ?_, ?_⟩
  · have := (listQuery_perm d name convID).map scanMacro
    rw [hw] at this
    exact this
  · show ((listQuery d name convID).map scanMacro).Pairwise _
    rw [List.pairwise_map]
    refine List.Pairwise.imp ?_ (listQuery_sorted d name convID)
    intro a b hab
    unfold listOrder at hab
    rw [strLT_iff] at hab
    simp only [scanMacro]
    rcases hab with h | ⟨he, hc⟩
    · exact ⟨le_of_lt h, fun e => absurd e (ne_of_lt h)⟩
    · refine ⟨le_of_eq he, fun _ hb => ?_⟩
      rw [hb] at hc
      cases ha : a.is_conv with
      | true => rfl
      | false => rw [ha] at hc; exact absurd hc (by decide)
  · intro h
    show (listQuery d name convID).map scanMacro = []
    have hnil : d.filter (listWhere name convID) = [] := by
      rw [List.filter_eq_nil_iff]
      intro r hr
      rw [hw]
      simpa using h r hr
    have := listQuery_perm d name convID
    rw [hnil] at this
    rw [List.Perm.eq_nil this]
    rfl

end macrobot

namespace gcalbot

/-! ## The advertisement and the start-up path of `gcalbot` -/

/-- Claim C5. `makeAdvertisement` returns one advertisement with the alias
`Google Calendar` and a single entry of type `public`. Its command list has exactly six
commands with pairwise distinct names, in this order: `gcal accounts list`,
`gcal accounts connect`, `gcal accounts disconnect`, `gcal list-calendars`,
`gcal subscribe invites`, `gcal unsubscribe invites`. Every command other than
`gcal accounts list` has the usage `<account nickname>` and an extended description whose
desktop body equals its mobile body. -/
theorem makeAdvertisement_six_commands :
    makeAdvertisement.Alias = "Google Calendar" ∧
    makeAdvertisement.Advertisements = [⟨"public", commands⟩] ∧
    commands.length = 6 ∧
    commands.map (fun c => c.Name) =
      ["gcal accounts list", "gcal accounts connect", "gcal accounts disconnect",
        "gcal list-calendars", "gcal subscribe invites", "gcal unsubscribe invites"] ∧
    (commands.map (fun c => c.Name)).Nodup ∧
    (∀ c ∈ commands, c.Name ≠ "gcal accounts list" →
      c.Usage = "<account nickname>" ∧
      ∃ e, c.ExtendedDescription = some e ∧ e.DesktopBody = e.MobileBody) := by
  refine ⟨rfl, rfl, rfl, rfl, by decide, ?_⟩
  intro c hc hne
  simp only [commands, List.mem_cons, List.mem_singleton, List.not_mem_nil, or_false] at hc
  rcases hc with rfl | rfl | rfl | rfl | rfl | rfl
  · exact absurd rfl hne
  all_goals exact ⟨rfl, _, rfl, rfl⟩

end gcalbot

namespace gcalbot

theorem utf8ByteSize_eq_zero_iff (s : String) : s.utf8ByteSize = 0 ↔ s = "" := by
  constructor
  · intro h
    cases s with
    | mk data =>
      cases data with
      | nil => rfl
      | cons c cs =>
        have hpos := Char.utf8Size_pos c
        simp only [String.utf8ByteSize, String.utf8ByteSize.go] at h
        omega
  · rintro rfl
    rfl

theorem getOAuthConfig_of_empty_root (w : World) (s : BotServer) (h : s.opts.KBFSRoot = "") :
    s.getOAuthConfig w = ((none, some "BOT_KBFS_ROOT must be specified\n"), []) := by
  unfold BotServer.getOAuthConfig
  rw [if_pos ((utf8ByteSize_eq_zero_iff _).2 h)]

theorem mainInner_of_Go (w : World) (opts : Options) (hp : w.parse = .ok opts)
    (hd : opts.DSN ≠ "") :
    (mainInner w).1 = (if ((NewBotServer opts).Go w).1 = none then 0 else 3) ∧
    (mainInner w).2.head? = some (Event.newBotServer opts.Announcement) := by
  have hz : ¬ opts.DSN.utf8ByteSize = 0 := fun h => hd ((utf8ByteSize_eq_zero_iff _).1 h)
  unfold mainInner
  rw [hp]
  simp only [if_neg hz]
  cases hG : ((NewBotServer opts).Go w).1 with
  | none => simp
  | some err => simp

/-- Claim C10. Start-up fails closed on missing configuration.
For every parsed `Options` with an empty DSN, `mainInner` returns 3 and its only effect is
the message it prints: no bot server is built and `Go` does not run.
For every `BotServer` whose options have an empty `KBFSRoot`, `getOAuthConfig` returns a nil
config with a non-nil error and runs no command, and `Go` returns a non-nil error with no
effect at all: the chat client is not started, the database is not opened, no command is
advertised and no HTTP server is started.
`mainInner` returns 0 or 3, and it returns 0 only when the options parse, the DSN is not
empty and `Go` returns nil; in every other case it returns 3. -/
theorem startup_fails_closed (w : World) :
    (∀ opts, w.parse = .ok opts → opts.DSN = "" →
      mainInner w = (3, [Event.printf "must specify a database DSN\n" []])) ∧
    (∀ s : BotServer, s.opts.KBFSRoot = "" →
      (s.getOAuthConfig w).1.1 = none ∧ (s.getOAuthConfig w).1.2 ≠ none ∧
      (s.getOAuthConfig w).2 = [] ∧
      (s.Go w).1 ≠ none ∧ (s.Go w).2 = []) ∧
    ((mainInner w).1 = 0 ↔
      ∃ opts, w.parse = .ok opts ∧ opts.DSN ≠ "" ∧ ((NewBotServer opts).Go w).1 = none) ∧
    ((mainInner w).1 ≠ 0 → (mainInner w).1 = 3) := by
  refine ⟨?_, ?_, ?_, ?_⟩
  · intro opts hp hd
    unfold mainInner
    rw [hp]
    simp only [if_pos ((utf8ByteSize_eq_zero_iff _).2 hd)]
  · intro s hs
    have hc := getOAuthConfig_of_empty_root w s hs
    refine ⟨by rw [hc], by rw [hc]; simp, by rw [hc], ?_, ?_⟩
    · unfold BotServer.Go
      simp [hc]
    · unfold BotServer.Go
      simp [hc]
  · constructor
    · intro h
      cases hp : w.parse with
      | error err =>
        unfold mainInner at h
        rw [hp] at h
        simp at h
      | ok opts =>
        by_cases hd : opts.DSN = ""
        · unfold mainInner at h
          rw [hp] at h
          simp only [if_pos ((utf8ByteSize_eq_zero_iff _).2 hd)] at h
          simp at h
        · refine ⟨opts, rfl, hd, ?_⟩
          rw [(mainInner_of_Go w opts hp hd).1] at h
          by_contra hG
          rw [if_neg hG] at h
          simp at h
    · rintro ⟨opts, hp, hd, hG⟩
      rw [(mainInner_of_Go w opts hp hd).1, if_pos hG]
  · intro h
    cases hp : w.parse with
    | error err =>
      unfold mainInner
      rw [hp]
    | ok opts =>
      by_cases hd : opts.DSN = ""
      · unfold mainInner
        rw [hp]
        simp only [if_pos ((utf8ByteSize_eq_zero_iff _).2 hd)]
      · rw [(mainInner_of_Go w opts hp hd).1] at h ⊢
        by_cases hG : ((NewBotServer opts).Go w).1 = none
        · rw [if_pos hG] at h
          exact absurd rfl h
        · rw [if_neg hG]

end gcalbot

namespace gcalbot

/-- The successful run: exit code 0, with every step of `Go` taken in the order of the source. -/
theorem mainInner_quietWorld :
    mainInner quietWorld =
      (0, [Event.newBotServer "ops",
        Event.printf "Running `keybase fs read` on %q and waiting for it to finish...\n"
          ["/keybase/private/bot/credentials.json"],
        Event.commandRun ["fs", "read", "/keybase/private/bot/credentials.json"],
        Event.configFromJSON [CalendarReadonlyScope, CalendarEventsScope],
        Event.start "keybase" "/home/bot",
        Event.sqlOpen "user@tcp(db)/gcal",
        Event.advertiseCommands makeAdvertisement,
        Event.sendAnnouncement "ops" "I live.",
        Event.listen "https://bot.example", Event.httpListen, Event.handleSignals]) := by
  rfl

/-- The same world with no KBFS root: exit code 3, and nothing runs after the bot server is built. -/
theorem mainInner_rootlessWorld :
    mainInner rootlessWorld =
      (3, [Event.newBotServer "ops",
        Event.printf "error running chat loop: %s\n"
          ["failed to get config BOT_KBFS_ROOT must be specified\n"]]) := by
  rfl

end gcalbot

namespace macrobot

/-! ## The tables that the calls build -/

theorem Scoped_nil (isConvID : String → Bool) : Scoped isConvID [] := by
  intro r hr
  simp at hr

/-- `Create` called with a team name and a conversation id keeps the table scoped. -/
theorem Scoped_Create {isConvID : String → Bool} {d : DB} (hs : Scoped isConvID d)
    (name convID : String) (isConv : Bool) (m msg : String)
    (hn : isConvID name = false) (hc : isConvID convID = true) :
    Scoped isConvID (DB.Create d name convID isConv m msg).2 := by
  intro r hr
  rcases mem_Create hr with ⟨x, hx, hxk⟩ | h
  · simp only [Row.key, Prod.mk.injEq] at hxk
    rw [← hxk.1, ← hxk.2.1]
    exact hs x hx
  · simp only [Row.key, Prod.mk.injEq] at h
    rw [h.1, h.2.1]
    cases isConv with
    | true => simp [hc]
    | false => simp [hn]

/-- `Remove` keeps the table scoped. -/
theorem Scoped_Remove {isConvID : String → Bool} {d : DB} (hs : Scoped isConvID d)
    (name convID m : String) : Scoped isConvID (DB.Remove d name convID m).2 :=
  fun r hr => hs r ((Remove_sublist d name convID m).subset hr)

/-- In a scoped table the rows stored under a team name are channel-wide. -/
theorem Scoped.team_rows {isConvID : String → Bool} {d : DB} (hs : Scoped isConvID d)
    {name : String} (hn : isConvID name = false) :
    ∀ r ∈ d, r.channel_name = name → r.is_conv = false := by
  intro r hr h
  rw [hs r hr, h, hn]

/-- In a scoped table no channel name holds rows of both scopes. -/
theorem Scoped.single_scope {isConvID : String → Bool} {d : DB} (hs : Scoped isConvID d) :
    ∀ r ∈ d, ∀ x ∈ d, r.channel_name = x.channel_name → r.is_conv = x.is_conv := by
  intro r hr x hx h
  rw [hs r hr, hs x hx, h]

end macrobot
